import Mathlib

/-!
# Verification of the CORD-19 metadata explorer core

Shallow embedding of the data-preparation and aggregation pipeline of the
repository (`analysis.py`: `CORD19Analyzer.clean_data`,
`analyze_publications_over_time`, `analyze_top_journals`,
`analyze_word_frequencies`; `app.py`: the filter application and the
overview metrics), together with proofs of the spec's testable properties.

Tables are lists of records; a missing (NaN) cell is `Option.none`.
Python / pandas library primitives used by the code (`str.split`,
`str.strip`, `str.title`, `str.lower`, `re.findall`, `Counter.most_common`,
`Series.value_counts`, `Series.isin`, `Series.mean`, `pd.to_datetime`) are
modelled explicitly below, each with a comment stating the modelling choice.
-/

/-! ## Python string primitives -/

/-- Python whitespace for `str.split()` / `str.strip()` (ASCII model). -/
def pyIsSpace (c : Char) : Bool :=
  c = ' ' || c = '\t' || c = '\n' || c = '\r' || c = '\x0b' || c = '\x0c'

/-- Maximal runs of characters satisfying `p`; `acc` is the current run,
reversed.  Used to model `str.split` and `re.findall` token extraction. -/
def runsAux (p : Char → Bool) : List Char → List Char → List (List Char)
  | [], acc => if acc.isEmpty then [] else [acc.reverse]
  | c :: cs, acc =>
    if p c then runsAux p cs (c :: acc)
    else if acc.isEmpty then runsAux p cs []
    else acc.reverse :: runsAux p cs []

/-- The maximal runs of characters satisfying `p` in `l`, in order. -/
def runs (p : Char → Bool) (l : List Char) : List (List Char) :=
  runsAux p l []

/-- Python `str.split()` with no separator: maximal non-whitespace runs. -/
def pySplit (s : String) : List String :=
  (runs (fun c => !(pyIsSpace c)) s.data).map String.mk

/-- Python `str.strip()`: drop leading and trailing whitespace. -/
def pyStrip (l : List Char) : List Char :=
  ((l.dropWhile pyIsSpace).reverse.dropWhile pyIsSpace).reverse

/-- Helper for `str.title`: the flag records whether the previous character
was a letter (cased). -/
def pyTitleAux : Bool → List Char → List Char
  | _, [] => []
  | prev, c :: cs =>
    if c.isAlpha then (if prev then c.toLower else c.toUpper) :: pyTitleAux true cs
    else c :: pyTitleAux false cs

/-- Python `str.title()` (ASCII model): a letter is uppercased when it does
not follow a letter, lowercased otherwise. -/
def pyTitle (l : List Char) : List Char :=
  pyTitleAux false l

/-- Python `str.lower()` (ASCII model). -/
def pyLower (l : List Char) : List Char :=
  l.map Char.toLower

/-- A regex word character `\w` (ASCII model): letter, digit or underscore. -/
def isWordChar (c : Char) : Bool :=
  c.isAlpha || c.isDigit || c = '_'

/-- Model of `re.findall(r'\b[a-zA-Z]{3,}\b', text)`: a match is a maximal
run of word characters that consists wholly of letters and has length at
least 3 (the `\b` boundaries require a non-word neighbour or a string end,
so an alphabetic run touching a digit or an underscore is not matched). -/
def findall_word_tokens (l : List Char) : List (List Char) :=
  (runs isWordChar l).filter (fun r => r.all Char.isAlpha && decide (3 ≤ r.length))

/-- Modelled from the spec (claim-comparison tokenizer, not from the code):
"maximal runs of ASCII alphabetic characters of length at least 3". -/
def alpha_runs_min3 (l : List Char) : List (List Char) :=
  (runs Char.isAlpha l).filter (fun r => decide (3 ≤ r.length))

/-- Python `' '.join`. -/
def sp_join : List (List Char) → List Char
  | [] => []
  | [x] => x
  | x :: y :: ys => x ++ ' ' :: sp_join (y :: ys)

/-! ## Counting and ranking primitives (Counter / value_counts) -/

/-- The distinct elements of a list, in order of first appearance.  Models
the key order of a Python dict / `Counter` and of the pandas value-count
hash table. -/
def firstUniques {α : Type} [DecidableEq α] : List α → List α
  | [] => []
  | a :: rest => a :: (firstUniques rest).filter (fun b => decide (b ≠ a))

/-- Keys in order of first appearance, each with its multiplicity: the
content of `Counter(v)` / un-sorted `value_counts`. -/
def countsInOrder {α : Type} [DecidableEq α] (v : List α) : List (α × Nat) :=
  (firstUniques v).map (fun a => (a, v.count a))

/-- Insert an entry into a count-descending list, before the first entry of
count less than or equal to its own: stable insertion. -/
def ordInsertCountDesc {α : Type} (x : α × Nat) : List (α × Nat) → List (α × Nat)
  | [] => [x]
  | y :: ys => if y.2 ≤ x.2 then x :: y :: ys else y :: ordInsertCountDesc x ys

/-- Stable sort, descending on the count component.  Models the stability of
Python `sorted(..., reverse=True)` / `heapq.nlargest` (used by
`Counter.most_common`) and of the pandas stable `value_counts` sort:
entries of equal count keep their first-appearance order. -/
def sortCountDesc {α : Type} : List (α × Nat) → List (α × Nat)
  | [] => []
  | x :: xs => ordInsertCountDesc x (sortCountDesc xs)

/-- Insert into a key-ascending list of per-year counts. -/
def ordInsertKeyAsc (x : Int × Nat) : List (Int × Nat) → List (Int × Nat)
  | [] => [x]
  | y :: ys => if x.1 ≤ y.1 then x :: y :: ys else y :: ordInsertKeyAsc x ys

/-- Sort per-year counts ascending by year: pandas `sort_index()`. -/
def sortKeyAsc : List (Int × Nat) → List (Int × Nat)
  | [] => []
  | x :: xs => ordInsertKeyAsc x (sortKeyAsc xs)

/-- Index of the first occurrence of `a` in `l` (length of `l` if absent). -/
def firstIdx {α : Type} [DecidableEq α] : List α → α → Nat
  | [], _ => 0
  | b :: bs, a => if a = b then 0 else firstIdx bs a + 1

/-! ## Data model -/

/-- One row of the raw table (`metadata.csv` after `pd.read_csv`): each
recognized column is `Option`-valued, `none` standing for a NaN cell. -/
structure RawRow where
  title : Option String
  abstract : Option String
  journal : Option String
  source_x : Option String
  publish_time : Option String
deriving DecidableEq

/-- One row of the working table produced by `clean_data`. -/
structure CleanRow where
  title : Option String
  abstract : Option String
  journal : Option String
  source_x : Option String
  publish_time : Option String
  publication_year : Option Int
  abstract_word_count : Nat
  journal_clean : String
deriving DecidableEq

/-- Modelled semantics of the library call
`pd.to_datetime(s, errors='coerce').dt.year` (pandas library code, not
repository code): an ISO-style string beginning with a four-digit year,
standing alone or followed by a date separator, yields that year; any
other value coerces to NaT, i.e. an absent year. -/
def parse_publish_time (s : String) : Option Int :=
  match s.data with
  | c1 :: c2 :: c3 :: c4 :: rest =>
    if c1.isDigit && c2.isDigit && c3.isDigit && c4.isDigit &&
        (rest.isEmpty || rest.headD ' ' = '-' || rest.headD ' ' = '/') then
      some (((c1.toNat - 48) * 1000 + (c2.toNat - 48) * 100 +
             (c3.toNat - 48) * 10 + (c4.toNat - 48) : Nat) : Int)
    else none
  | _ => none

/-- Lines 60-86 of `analysis.py`, the per-row part of `clean_data`:
fill missing abstract with `''`, parse the publish date and extract its
year, count whitespace tokens of the (filled) abstract, and normalize the
journal name (`fillna('Unknown')`, `str.strip()`, `str.title()`). -/
def cleanRow (r : RawRow) : CleanRow :=
  { title := r.title
    abstract := some (r.abstract.getD "")
    journal := r.journal
    source_x := r.source_x
    publish_time := r.publish_time
    publication_year := (r.publish_time.bind fun s => parse_publish_time s)
    abstract_word_count := (pySplit (r.abstract.getD "")).length
    journal_clean := String.mk (pyTitle (pyStrip (r.journal.getD "Unknown").data)) }

/-- Lines 52-88 of `analysis.py`, `clean_data` on the rows: drop the rows whose
`title` is NaN (`dropna(subset=['title'], how='all')`), then derive the
cleaned columns row by row. -/
def cleanRows (raws : List RawRow) : List CleanRow :=
  (raws.filter (fun r => r.title.isSome)).map cleanRow

/-- A raw dataframe together with which recognized columns are present.
Accessing a column that a pandas DataFrame lacks raises `KeyError`; the
flags let the embedding express that. -/
structure DataFrameR where
  hasTitle : Bool
  hasAbstract : Bool
  hasJournal : Bool
  hasSource : Bool
  hasPublishTime : Bool
  rows : List RawRow
deriving DecidableEq

/-- Lines 52-88 of `analysis.py`, `clean_data` at dataframe level: the method
accesses `title` (via `dropna(subset=['title'])`), then `abstract`, then
`publish_time`, then `journal`, in that order, and pandas raises `KeyError`
at the first access to a missing column; `source_x` is never touched. -/
def clean_data (df : DataFrameR) : Except String (List CleanRow) :=
  if !df.hasTitle then Except.error "KeyError: title"
  else if !df.hasAbstract then Except.error "KeyError: abstract"
  else if !df.hasPublishTime then Except.error "KeyError: publish_time"
  else if !df.hasJournal then Except.error "KeyError: journal"
  else Except.ok (cleanRows df.rows)

/-! ## Text Analyzer (`analyze_word_frequencies`) -/

/-- Lines 133-136 of `analysis.py`: the configured stop-word set. -/
def stop_words : List String :=
  ["the", "and", "of", "in", "to", "a", "for", "with", "on", "by",
   "as", "an", "from", "that", "this", "is", "are", "was", "were",
   "be", "has", "have", "had", "but", "not", "at", "which", "or",
   "it", "its", "their", "they", "them", "these", "those", "such"]

/-- The concatenated text stream of a column:
`' '.join(df[column].dropna().astype(str))` (dropped NaN cells, values
joined by single spaces, row order preserved). -/
def column_text (values : List (Option String)) : List Char :=
  sp_join (values.filterMap (fun v => v.map String.data))

/-- Line 130 of `analysis.py`: the token list of a column,
`re.findall(r'\b[a-zA-Z]{3,}\b', all_text.lower())`. -/
def column_tokens (values : List (Option String)) : List String :=
  (findall_word_tokens (pyLower (column_text values))).map String.mk

/-- Line 138 of `analysis.py`: the tokens surviving stop-word removal. -/
def filtered_tokens (values : List (Option String)) : List String :=
  (column_tokens values).filter (fun w => !(stop_words.contains w))

/-- Lines 118-144 of `analysis.py`, `analyze_word_frequencies` applied to the
value list of one column: tokenize the joined lowered text, remove stop
words, count with `Counter` and return `most_common(top_n)` as an ordered
association list. -/
def analyze_word_frequencies (values : List (Option String)) (top_n : Nat) :
    List (String × Nat) :=
  (sortCountDesc (countsInOrder (filtered_tokens values))).take top_n

/-- Modelled from the spec (claim-comparison definition, not from the code):
the same frequency pipeline but with the claim's tokenization, "maximal
runs of ASCII alphabetic characters of length at least 3". -/
def claim_word_frequencies (values : List (Option String)) (top_n : Nat) :
    List (String × Nat) :=
  let words := (alpha_runs_min3 (pyLower (column_text values))).map String.mk
  let filtered := words.filter (fun w => !(stop_words.contains w))
  (sortCountDesc (countsInOrder filtered)).take top_n

/-! ## Aggregator -/

/-- The `journal_clean` column of the working table. -/
def journal_keys (df : List CleanRow) : List String :=
  df.map (fun r => r.journal_clean)

/-- Lines 107-116 of `analysis.py`, `analyze_top_journals`:
`df_clean['journal_clean'].value_counts().head(top_n)` — per-journal
multiplicities, stable-sorted descending by count, first `top_n` kept. -/
def analyze_top_journals (df : List CleanRow) (top_n : Nat) :
    List (String × Nat) :=
  (sortCountDesc (countsInOrder (df.map (fun r => r.journal_clean)))).take top_n

/-- Lines 90-105 of `analysis.py`, `analyze_publications_over_time`: keep rows
with a present `publication_year`, restrict to `2019 ≤ year ≤ 2023`, then
`value_counts().sort_index()`. -/
def analyze_publications_over_time (df : List CleanRow) : List (Int × Nat) :=
  sortKeyAsc (sortCountDesc (countsInOrder
    (((df.filterMap (fun r => r.publication_year)).filter
        (fun y => decide (2019 ≤ y))).filter (fun y => decide (y ≤ 2023)))))

/-! ## Filter Engine and presentation-layer computations (`app.py`) -/

/-- Lines 97-111 of `app.py`, the filter application: the year-range mask is
always applied (a NaN year compares `False` against both bounds, so rows
with an absent year are dropped); the journal and source masks are applied
only when the corresponding selection list is non-empty (`if selected_...:`),
using `isin`, under which a NaN `source_x` never matches. -/
def applyFilters (df : List CleanRow) (yearMin yearMax : Int)
    (selected_journals selected_sources : List String) : List CleanRow :=
  let byYear := df.filter (fun r =>
    match r.publication_year with
    | some y => decide (yearMin ≤ y) && decide (y ≤ yearMax)
    | none => false)
  let byJournal :=
    if selected_journals.isEmpty then byYear
    else byYear.filter (fun r => selected_journals.contains r.journal_clean)
  if selected_sources.isEmpty then byJournal
  else byJournal.filter (fun r =>
    match r.source_x with
    | some s => selected_sources.contains s
    | none => false)

/-- pandas `Series.mean()` over a count column: NaN (modelled `none`) on an
empty series, otherwise the rational mean.  The code has no emptiness
guard. -/
def series_mean (l : List Nat) : Option ℚ :=
  if l.length = 0 then none else some ((l.sum : ℚ) / (l.length : ℚ))

/-- Lines 126-140 of `app.py`, the overview key metrics of the filtered table:
total rows, `journal_clean.nunique()`, `abstract_word_count.mean()`, and
the number of rows with `abstract_word_count > 0`. -/
def overview_metrics (filtered_df : List CleanRow) : Nat × Nat × Option ℚ × Nat :=
  (filtered_df.length,
   (firstUniques (filtered_df.map (fun r => r.journal_clean))).length,
   series_mean (filtered_df.map (fun r => r.abstract_word_count)),
   (filtered_df.filter (fun r => decide (0 < r.abstract_word_count))).length)

/-- Line 228 of `app.py`, the word-frequency table of the word-analysis tab:
the code calls `analyzer.analyze_word_frequencies('title', 15)`, which reads
`analyzer.df_clean`; the filtered table in scope is not consulted. -/
def tab3_title_words (df_clean : List CleanRow) (filtered_df : List CleanRow) :
    List (String × Nat) :=
  analyze_word_frequencies (df_clean.map (fun r => r.title)) 15

/-! ## Concrete tables used by the scenario claims and witnesses -/

/-- The raw table of the spec's word-frequency scenario: three rows whose
titles are "COVID vaccine trial", "vaccine efficacy and covid spread" and
an empty cell (read as NaN by the loader, hence an absent title). -/
def c5_raw_table : List RawRow :=
  [⟨some "COVID vaccine trial", none, none, none, none⟩,
   ⟨some "vaccine efficacy and covid spread", none, none, none, none⟩,
   ⟨none, none, none, none, none⟩]

/-- A two-row working table whose second row falls outside the 2019-2023
year range: used to exhibit the unfiltered word-frequency tab. -/
def c7_working_table : List CleanRow :=
  [⟨some "alpha research paper", some "", none, none, none, some 2020, 0, "Unknown"⟩,
   ⟨some "beta research paper", some "", none, none, none, some 1990, 0, "Unknown"⟩]

/-- A five-row working table with a count tie between "Nature" and
"Science" and a below-cutoff "Lancet". -/
def c4_working_table : List CleanRow :=
  [⟨some "a", some "", none, none, none, none, 0, "Nature"⟩,
   ⟨some "b", some "", none, none, none, none, 0, "Science"⟩,
   ⟨some "c", some "", none, none, none, none, 0, "Nature"⟩,
   ⟨some "d", some "", none, none, none, none, 0, "Lancet"⟩,
   ⟨some "e", some "", none, none, none, none, 0, "Science"⟩]

/-- A working table with years 2020, 2020, 1990 and one absent year. -/
def c8_working_table : List CleanRow :=
  [⟨some "a", some "", none, none, none, some 2020, 0, "Unknown"⟩,
   ⟨some "b", some "", none, none, none, some 2020, 0, "Unknown"⟩,
   ⟨some "c", some "", none, none, none, some 1990, 0, "Unknown"⟩,
   ⟨some "d", some "", none, none, none, none, 0, "Unknown"⟩]

/-- A working row whose publish date failed to parse. -/
def c10_dateless_row : CleanRow :=
  ⟨some "t", some "", none, none, some "not a date", none, 0, "Unknown"⟩

/-! ## Supporting lemmas -/

theorem char_isUpper_iff (a : Char) : a.isUpper = true ↔ 65 ≤ a.toNat ∧ a.toNat ≤ 90 := by
  simp only [Char.isUpper, Bool.and_eq_true, decide_eq_true_eq]
  constructor
  · rintro ⟨h1, h2⟩
    refine ⟨?_, ?_⟩
    · have := UInt32.le_def.mp h1
      have := BitVec.le_def.mp this
      simpa using this
    · have := UInt32.le_def.mp h2
      have := BitVec.le_def.mp this
      simpa using this
  · rintro ⟨h1, h2⟩
    constructor
    · apply UInt32.le_def.mpr
      apply BitVec.le_def.mpr
      simpa using h1
    · apply UInt32.le_def.mpr
      apply BitVec.le_def.mpr
      simpa using h2

theorem char_toNat_ofNat_valid {m : Nat} (h : m.isValidChar) : (Char.ofNat m).toNat = m := by
  rw [Char.ofNat, dif_pos h]
  simp [Char.ofNatAux, Char.toNat, UInt32.toNat]

theorem isUpper_toLower (c : Char) : (Char.toLower c).isUpper = false := by
  unfold Char.toLower
  by_cases h : 65 ≤ c.toNat ∧ c.toNat ≤ 90
  · rw [if_pos ⟨h.1, h.2⟩]
    have hv : (c.toNat + 32).isValidChar := Or.inl (by omega)
    apply Bool.eq_false_iff.mpr
    intro hu
    have := (char_isUpper_iff _).mp hu
    rw [char_toNat_ofNat_valid hv] at this
    omega
  · rw [if_neg (by omega)]
    apply Bool.eq_false_iff.mpr
    intro hu
    have := (char_isUpper_iff _).mp hu
    omega


theorem mem_firstUniques {α : Type} [DecidableEq α] (v : List α) (a : α) :
    a ∈ firstUniques v ↔ a ∈ v := by
  induction v with
  | nil => simp [firstUniques]
  | cons b rest ih =>
    simp only [firstUniques, List.mem_cons, List.mem_filter, decide_eq_true_eq, ih]
    by_cases hab : a = b <;> simp [hab]

theorem nodup_firstUniques {α : Type} [DecidableEq α] (v : List α) :
    (firstUniques v).Nodup := by
  induction v with
  | nil => simp [firstUniques]
  | cons b rest ih =>
    refine List.Nodup.cons ?_ (ih.filter _)
    intro hb
    have := (List.mem_filter.mp hb).2
    simp at this

theorem firstIdx_cons {α : Type} [DecidableEq α] (b : α) (bs : List α) (a : α) :
    firstIdx (b :: bs) a = if a = b then 0 else firstIdx bs a + 1 := rfl

theorem pairwise_firstIdx_firstUniques {α : Type} [DecidableEq α] (v : List α) :
    (firstUniques v).Pairwise (fun a b => firstIdx v a < firstIdx v b) := by
  induction v with
  | nil => simp [firstUniques]
  | cons c rest ih =>
    rw [firstUniques, List.pairwise_cons]
    constructor
    · intro y hy
      have hyne : y ≠ c := by
        have := (List.mem_filter.mp hy).2
        simpa using this
      rw [firstIdx_cons, firstIdx_cons, if_pos rfl, if_neg hyne]
      omega
    · have hfilter := ih.filter (fun b => decide (b ≠ c))
      refine hfilter.imp_of_mem ?_
      intro a b ha hb hlt
      have hane : a ≠ c := by have := (List.mem_filter.mp ha).2; simpa using this
      have hbne : b ≠ c := by have := (List.mem_filter.mp hb).2; simpa using this
      rw [firstIdx_cons, firstIdx_cons, if_neg hane, if_neg hbne]
      omega

theorem mem_countsInOrder {α : Type} [DecidableEq α] (v : List α) (p : α × Nat) :
    p ∈ countsInOrder v ↔ p.1 ∈ v ∧ p.2 = v.count p.1 := by
  simp only [countsInOrder, List.mem_map, mem_firstUniques]
  constructor
  · rintro ⟨a, ha, rfl⟩
    exact ⟨ha, rfl⟩
  · rintro ⟨h1, h2⟩
    exact ⟨p.1, h1, by rw [← h2]⟩

theorem pairwise_firstIdx_countsInOrder {α : Type} [DecidableEq α] (v : List α) :
    (countsInOrder v).Pairwise (fun p q => firstIdx v p.1 < firstIdx v q.1) := by
  rw [countsInOrder, List.pairwise_map]
  exact pairwise_firstIdx_firstUniques v

theorem pairwise_ne_countsInOrder {α : Type} [DecidableEq α] (v : List α) :
    (countsInOrder v).Pairwise (fun p q => p.1 ≠ q.1) := by
  rw [countsInOrder, List.pairwise_map]
  exact nodup_firstUniques v

theorem sum_map_add_nat {α : Type} (u : List α) (f g : α → Nat) :
    (u.map (fun a => f a + g a)).sum = (u.map f).sum + (u.map g).sum := by
  induction u with
  | nil => simp
  | cons a u ih => simp [ih]; omega

theorem sum_map_indicator {α : Type} [DecidableEq α] (u : List α) (x : α) :
    (u.map (fun a => if a = x then 1 else 0)).sum = u.count x := by
  induction u with
  | nil => simp
  | cons a u ih =>
    simp only [List.map_cons, List.sum_cons, List.count_cons, ih, beq_iff_eq]
    by_cases hax : a = x
    · subst hax
      simp only [if_pos rfl]
      omega
    · simp only [if_neg hax, if_neg (fun hh => hax (Eq.symm hh))]
      omega

theorem sum_counts_of_cover {α : Type} [DecidableEq α] (v u : List α)
    (hu : u.Nodup) (hcover : ∀ x ∈ v, x ∈ u) :
    (u.map (fun a => v.count a)).sum = v.length := by
  induction v with
  | nil => simp
  | cons x v ih =>
    have hx : x ∈ u := hcover x (by simp)
    have hstep : (u.map (fun a => (x :: v).count a)).sum
        = (u.map (fun a => v.count a + if a = x then 1 else 0)).sum := by
      congr 1
      apply List.map_congr_left
      intro a _
      rw [List.count_cons]
      simp only [beq_iff_eq]
      by_cases h : a = x
      · subst h
        simp
      · rw [if_neg (fun hh => h hh.symm), if_neg h]
    rw [hstep, sum_map_add_nat, sum_map_indicator, ih (fun y hy => hcover y (by simp [hy]))]
    rw [List.count_eq_one_of_mem hu hx]
    simp

theorem perm_ordInsertCountDesc {α : Type} (x : α × Nat) (l : List (α × Nat)) :
    List.Perm (ordInsertCountDesc x l) (x :: l) := by
  induction l with
  | nil => exact List.Perm.refl _
  | cons y ys ih =>
    rw [ordInsertCountDesc]
    by_cases h : y.2 ≤ x.2
    · rw [if_pos h]
    · rw [if_neg h]
      exact (ih.cons y).trans (List.Perm.swap x y ys)

theorem perm_sortCountDesc {α : Type} (l : List (α × Nat)) :
    List.Perm (sortCountDesc l) l := by
  induction l with
  | nil => exact List.Perm.refl _
  | cons x xs ih =>
    exact (perm_ordInsertCountDesc x (sortCountDesc xs)).trans (ih.cons x)

theorem mem_ordInsertCountDesc {α : Type} (x w : α × Nat) (l : List (α × Nat)) :
    w ∈ ordInsertCountDesc x l ↔ w = x ∨ w ∈ l := by
  rw [(perm_ordInsertCountDesc x l).mem_iff]
  simp

theorem pairwise_ordInsertCountDesc {α : Type} (g : α × Nat → Nat)
    (x : α × Nat) (s : List (α × Nat))
    (hs : s.Pairwise (fun a b => b.2 < a.2 ∨ (a.2 = b.2 ∧ g a < g b)))
    (hx : ∀ y ∈ s, g x < g y) :
    (ordInsertCountDesc x s).Pairwise
      (fun a b => b.2 < a.2 ∨ (a.2 = b.2 ∧ g a < g b)) := by
  induction s with
  | nil => simp [ordInsertCountDesc]
  | cons y ys ih =>
    rw [ordInsertCountDesc]
    rcases List.pairwise_cons.mp hs with ⟨hy, hys⟩
    by_cases h : y.2 ≤ x.2
    · rw [if_pos h]
      rw [List.pairwise_cons]
      refine ⟨?_, hs⟩
      intro z hz
      have hz2 : z.2 ≤ x.2 := by
        rcases List.mem_cons.mp hz with rfl | hz
        · exact h
        · rcases hy z hz with hlt | ⟨heq, _⟩
          · omega
          · omega
      rcases Nat.lt_or_ge z.2 x.2 with hlt | hge
      · exact Or.inl hlt
      · have : x.2 = z.2 := by omega
        exact Or.inr ⟨this, hx z hz⟩
    · rw [if_neg h]
      rw [List.pairwise_cons]
      constructor
      · intro w hw
        rcases (mem_ordInsertCountDesc x w ys).mp hw with rfl | hw
        · exact Or.inl (by omega)
        · exact hy w hw
      · exact ih hys (fun y hy2 => hx y (by simp [hy2]))

theorem pairwise_sortCountDesc {α : Type} (g : α × Nat → Nat) (l : List (α × Nat))
    (h : l.Pairwise (fun a b => g a < g b)) :
    (sortCountDesc l).Pairwise (fun a b => b.2 < a.2 ∨ (a.2 = b.2 ∧ g a < g b)) := by
  induction l with
  | nil => simp [sortCountDesc]
  | cons x xs ih =>
    rcases List.pairwise_cons.mp h with ⟨hx, hxs⟩
    rw [sortCountDesc]
    refine pairwise_ordInsertCountDesc g x (sortCountDesc xs) (ih hxs) ?_
    intro y hy
    exact hx y ((perm_sortCountDesc xs).mem_iff.mp hy)

theorem perm_ordInsertKeyAsc (x : Int × Nat) (l : List (Int × Nat)) :
    List.Perm (ordInsertKeyAsc x l) (x :: l) := by
  induction l with
  | nil => exact List.Perm.refl _
  | cons y ys ih =>
    rw [ordInsertKeyAsc]
    by_cases h : x.1 ≤ y.1
    · rw [if_pos h]
    · rw [if_neg h]
      exact (ih.cons y).trans (List.Perm.swap x y ys)

theorem perm_sortKeyAsc (l : List (Int × Nat)) : List.Perm (sortKeyAsc l) l := by
  induction l with
  | nil => exact List.Perm.refl _
  | cons x xs ih =>
    exact (perm_ordInsertKeyAsc x (sortKeyAsc xs)).trans (ih.cons x)

theorem pairwise_ordInsertKeyAsc (x : Int × Nat) (s : List (Int × Nat))
    (hs : s.Pairwise (fun a b => a.1 < b.1)) (hx : ∀ y ∈ s, x.1 ≠ y.1) :
    (ordInsertKeyAsc x s).Pairwise (fun a b => a.1 < b.1) := by
  induction s with
  | nil => simp [ordInsertKeyAsc]
  | cons y ys ih =>
    rw [ordInsertKeyAsc]
    rcases List.pairwise_cons.mp hs with ⟨hy, hys⟩
    by_cases h : x.1 ≤ y.1
    · rw [if_pos h]
      rw [List.pairwise_cons]
      refine ⟨?_, hs⟩
      intro z hz
      have hxy : x.1 < y.1 := lt_of_le_of_ne h (hx y (by simp))
      rcases List.mem_cons.mp hz with rfl | hz
      · exact hxy
      · exact hxy.trans (hy z hz)
    · rw [if_neg h]
      rw [List.pairwise_cons]
      constructor
      · intro w hw
        have hw2 := (perm_ordInsertKeyAsc x ys).mem_iff.mp hw
        rcases List.mem_cons.mp hw2 with rfl | hw3
        · omega
        · exact hy w hw3
      · exact ih hys (fun z hz => hx z (by simp [hz]))

theorem pairwise_sortKeyAsc (l : List (Int × Nat))
    (h : l.Pairwise (fun a b => a.1 ≠ b.1)) :
    (sortKeyAsc l).Pairwise (fun a b => a.1 < b.1) := by
  induction l with
  | nil => simp [sortKeyAsc]
  | cons x xs ih =>
    rcases List.pairwise_cons.mp h with ⟨hx, hxs⟩
    rw [sortKeyAsc]
    refine pairwise_ordInsertKeyAsc x (sortKeyAsc xs) (ih hxs) ?_
    intro y hy
    exact hx y ((perm_sortKeyAsc xs).mem_iff.mp hy)

theorem sum_counts_countsInOrder {α : Type} [DecidableEq α] (v : List α) :
    ((countsInOrder v).map (fun p => p.2)).sum = v.length := by
  rw [countsInOrder, List.map_map]
  exact sum_counts_of_cover v (firstUniques v) (nodup_firstUniques v)
    (fun x hx => (mem_firstUniques v x).mpr hx)

theorem mem_of_mem_runsAux (p : Char → Bool) :
    ∀ (l acc r : List Char), r ∈ runsAux p l acc → ∀ c ∈ r, c ∈ l ∨ c ∈ acc := by
  intro l
  induction l with
  | nil =>
    intro acc r hr c hc
    rw [runsAux] at hr
    by_cases hacc : acc.isEmpty
    · rw [if_pos hacc] at hr
      simp at hr
    · rw [if_neg hacc] at hr
      rcases List.mem_singleton.mp hr with rfl
      exact Or.inr (List.mem_reverse.mp hc)
  | cons d cs ih =>
    intro acc r hr c hc
    rw [runsAux] at hr
    by_cases hp : p d
    · rw [if_pos hp] at hr
      rcases ih (d :: acc) r hr c hc with h | h
      · exact Or.inl (by simp [h])
      · rcases List.mem_cons.mp h with rfl | h
        · exact Or.inl (by simp)
        · exact Or.inr h
    · rw [if_neg hp] at hr
      by_cases hacc : acc.isEmpty
      · rw [if_pos hacc] at hr
        rcases ih [] r hr c hc with h | h
        · exact Or.inl (by simp [h])
        · simp at h
      · rw [if_neg hacc] at hr
        rcases List.mem_cons.mp hr with rfl | hr2
        · exact Or.inr (List.mem_reverse.mp hc)
        · rcases ih [] r hr2 c hc with h | h
          · exact Or.inl (by simp [h])
          · simp at h

theorem mem_of_mem_runs (p : Char → Bool) (l r : List Char)
    (hr : r ∈ runs p l) : ∀ c ∈ r, c ∈ l := by
  intro c hc
  rcases mem_of_mem_runsAux p l [] r hr c hc with h | h
  · exact h
  · simp at h

theorem contains_iff_mem {α : Type} [BEq α] [LawfulBEq α] (l : List α) (a : α) :
    l.contains a = true ↔ a ∈ l := List.elem_iff

/-- C1: for every raw table, every row of the Cleaner's working table has a
present (non-NaN) `title`, a present (never null) `abstract` — null
abstracts having been replaced by the empty string — and an
`abstract_word_count` equal to the number of whitespace-delimited tokens of
its `abstract`, in particular 0 for an empty abstract. -/
theorem c1_cleaner_invariants (raws : List RawRow) :
    ∀ c ∈ cleanRows raws,
      c.title.isSome = true ∧
      c.abstract.isSome = true ∧
      c.abstract_word_count = (pySplit (c.abstract.getD "")).length ∧
      (c.abstract = some "" → c.abstract_word_count = 0) := by
  intro c hc
  rw [cleanRows] at hc
  rcases List.mem_map.mp hc with ⟨r, hr, rfl⟩
  have ht := (List.mem_filter.mp hr).2
  refine ⟨ht, rfl, rfl, ?_⟩
  intro habs
  have : r.abstract.getD "" = "" := Option.some.inj habs
  rw [cleanRow]
  simp only [this]
  rfl

/-- Witness for C1 at a concrete one-row table whose abstract is NaN. -/
theorem c1_cleaner_invariants_witness :
    (cleanRow ⟨some "T", none, none, none, none⟩).title.isSome = true ∧
    (cleanRow ⟨some "T", none, none, none, none⟩).abstract.isSome = true ∧
    (cleanRow ⟨some "T", none, none, none, none⟩).abstract_word_count =
      (pySplit ((cleanRow ⟨some "T", none, none, none, none⟩).abstract.getD "")).length ∧
    ((cleanRow ⟨some "T", none, none, none, none⟩).abstract = some "" →
      (cleanRow ⟨some "T", none, none, none, none⟩).abstract_word_count = 0) :=
  c1_cleaner_invariants [⟨some "T", none, none, none, none⟩]
    (cleanRow ⟨some "T", none, none, none, none⟩) (by decide)

/-- C2: a row appears in the Filter Engine's output iff its
`publication_year` is present and inside the inclusive year range, its
normalized journal is accepted whenever the journal selection is non-empty,
and its raw source label is present and accepted whenever the source
selection is non-empty; an empty selection filters nothing on that
dimension. -/
theorem c2_filter_engine_characterization (df : List CleanRow)
    (yearMin yearMax : Int) (js ss : List String) (r : CleanRow) :
    r ∈ applyFilters df yearMin yearMax js ss ↔
      r ∈ df ∧
      (∃ y, r.publication_year = some y ∧ yearMin ≤ y ∧ y ≤ yearMax) ∧
      (js = [] ∨ r.journal_clean ∈ js) ∧
      (ss = [] ∨ ∃ s, r.source_x = some s ∧ s ∈ ss) := by
  have hyear : ∀ row : CleanRow,
      ((match row.publication_year with
        | some y => decide (yearMin ≤ y) && decide (y ≤ yearMax)
        | none => false) = true) ↔
      (∃ y, row.publication_year = some y ∧ yearMin ≤ y ∧ y ≤ yearMax) := by
    intro row
    cases hp : row.publication_year with
    | none => simp
    | some y => simp
  have hsrc : ∀ row : CleanRow,
      ((match row.source_x with
        | some s => ss.contains s
        | none => false) = true) ↔
      (∃ s, row.source_x = some s ∧ s ∈ ss) := by
    intro row
    cases hp : row.source_x with
    | none => simp
    | some s => simp [contains_iff_mem]
  simp only [applyFilters]
  by_cases hjs : js.isEmpty = true
  · rw [if_pos hjs]
    have hjsnil : js = [] := List.isEmpty_iff.mp hjs
    by_cases hss : ss.isEmpty = true
    · rw [if_pos hss]
      have hssnil : ss = [] := List.isEmpty_iff.mp hss
      simp only [List.mem_filter, hyear, hjsnil, hssnil]
      tauto
    · rw [if_neg hss]
      have hssne : ¬(ss = []) := fun h => hss (by simp [h])
      simp only [List.mem_filter, hyear, hsrc, hjsnil, Bool.and_eq_true]
      tauto
  · rw [if_neg hjs]
    have hjsne : ¬(js = []) := fun h => hjs (by simp [h])
    by_cases hss : ss.isEmpty = true
    · rw [if_pos hss]
      have hssnil : ss = [] := List.isEmpty_iff.mp hss
      simp only [List.mem_filter, hyear, contains_iff_mem, hssnil, Bool.and_eq_true]
      tauto
    · rw [if_neg hss]
      have hssne : ¬(ss = []) := fun h => hss (by simp [h])
      simp only [List.mem_filter, hyear, hsrc, contains_iff_mem, Bool.and_eq_true]
      tauto

/-- C3 counterexample: on the one-row column `"covid19 vaccine"` the code's
regex `\b[a-zA-Z]{3,}\b` never matches inside `covid19` (no word boundary
between `d` and `1`), so the maximal alphabetic run `covid` — which the
claim's tokenization would count — is absent from the returned table. -/
theorem c3_counterexample :
    analyze_word_frequencies [some "covid19 vaccine"] 5 = [("vaccine", 1)] ∧
    claim_word_frequencies [some "covid19 vaccine"] 5 =
      [("covid", 1), ("vaccine", 1)] ∧
    analyze_word_frequencies [some "covid19 vaccine"] 5 ≠
      claim_word_frequencies [some "covid19 vaccine"] 5 :=
  ⟨by decide, by decide, by decide⟩

/-- C3 (amended): every entry of `wordFrequencies` is a word-boundary
delimited token of the lowercased concatenated stream — a maximal run of
word characters that is wholly ASCII-alphabetic and has length at least 3
(alphabetic runs adjacent to a digit or underscore are discarded entirely,
never merged) — is lowercase, is not a stop word whatever its original
case, and carries the exact multiplicity of that token among the
stop-filtered tokens. -/
theorem c3_regex_tokens_amended (values : List (Option String)) (n : Nat) :
    ∀ p ∈ analyze_word_frequencies values n,
      p.1 ∈ column_tokens values ∧
      3 ≤ p.1.data.length ∧
      p.1.data.all Char.isAlpha = true ∧
      (∀ c ∈ p.1.data, c.isLower = true) ∧
      p.1 ∉ stop_words ∧
      p.2 = (filtered_tokens values).count p.1 ∧
      0 < p.2 := by
  intro p hp
  rw [analyze_word_frequencies] at hp
  have hp2 : p ∈ sortCountDesc (countsInOrder (filtered_tokens values)) :=
    List.mem_of_mem_take hp
  have hp3 : p ∈ countsInOrder (filtered_tokens values) :=
    (perm_sortCountDesc _).mem_iff.mp hp2
  obtain ⟨hmem, hcount⟩ := (mem_countsInOrder _ p).mp hp3
  have hmf := List.mem_filter.mp hmem
  have htok : p.1 ∈ column_tokens values := hmf.1
  have hstop : p.1 ∉ stop_words := by
    intro hin
    have := (contains_iff_mem stop_words p.1).mpr hin
    rw [this] at hmf
    simp at hmf
  rcases List.mem_map.mp htok with ⟨r, hr, hmk⟩
  have hdata : p.1.data = r := by rw [← hmk]
  have hrf := List.mem_filter.mp hr
  have hruns : r ∈ runs isWordChar (pyLower (column_text values)) := hrf.1
  have hall : r.all Char.isAlpha = true := by
    have := hrf.2
    simp only [Bool.and_eq_true] at this
    exact this.1
  have hlen : 3 ≤ r.length := by
    have := hrf.2
    simp only [Bool.and_eq_true, decide_eq_true_eq] at this
    exact this.2
  refine ⟨htok, by rw [hdata]; exact hlen, by rw [hdata]; exact hall, ?_, hstop,
    hcount, by rw [hcount]; exact List.count_pos_iff.mpr hmem⟩
  intro c hc
  rw [hdata] at hc
  have hcl : c ∈ pyLower (column_text values) :=
    mem_of_mem_runs isWordChar _ r hruns c hc
  rcases List.mem_map.mp hcl with ⟨c0, _, rfl⟩
  have halpha : (Char.toLower c0).isAlpha = true := by
    have := List.all_eq_true.mp hall _ hc
    simpa using this
  have hupper := isUpper_toLower c0
  simp only [Char.isAlpha, hupper, Bool.false_or] at halpha
  exact halpha

/-- C4: `topJournals` returns at most `n` entries, in descending-count
order with ties broken by first occurrence of the normalized name in the
table's row order; each entry carries the true multiplicity of a journal
name of the table; and any journal name of the table that is absent from
the output (the sentinel "Unknown" included) is absent only because the
output already holds `n` entries that strictly precede it in that
ordering. -/
theorem c4_top_journals (df : List CleanRow) (n : Nat) :
    (analyze_top_journals df n).length ≤ n ∧
    (analyze_top_journals df n).Pairwise (fun p q =>
      q.2 < p.2 ∨ (p.2 = q.2 ∧
        firstIdx (journal_keys df) p.1 < firstIdx (journal_keys df) q.1)) ∧
    (∀ p ∈ analyze_top_journals df n,
      p.1 ∈ journal_keys df ∧ p.2 = (journal_keys df).count p.1) ∧
    (∀ k ∈ journal_keys df,
      k ∉ (analyze_top_journals df n).map Prod.fst →
      (analyze_top_journals df n).length = n ∧
      ∀ p ∈ analyze_top_journals df n,
        (journal_keys df).count k < p.2 ∨
        (p.2 = (journal_keys df).count k ∧
          firstIdx (journal_keys df) p.1 < firstIdx (journal_keys df) k)) := by
  have hR : (sortCountDesc (countsInOrder (journal_keys df))).Pairwise
      (fun p q => q.2 < p.2 ∨ (p.2 = q.2 ∧
        firstIdx (journal_keys df) p.1 < firstIdx (journal_keys df) q.1)) :=
    pairwise_sortCountDesc (fun p => firstIdx (journal_keys df) p.1) _
      (pairwise_firstIdx_countsInOrder (journal_keys df))
  refine ⟨List.length_take_le n _, ?_, ?_, ?_⟩
  · exact hR.sublist (List.take_sublist n _)
  · intro p hp
    have hp2 : p ∈ countsInOrder (journal_keys df) :=
      (perm_sortCountDesc _).mem_iff.mp (List.mem_of_mem_take hp)
    exact (mem_countsInOrder _ p).mp hp2
  · intro k hk hknot
    have hkfull : (k, (journal_keys df).count k) ∈ countsInOrder (journal_keys df) :=
      (mem_countsInOrder _ _).mpr ⟨hk, rfl⟩
    have hksorted : (k, (journal_keys df).count k) ∈
        sortCountDesc (countsInOrder (journal_keys df)) :=
      (perm_sortCountDesc _).mem_iff.mpr hkfull
    have hsplit : sortCountDesc (countsInOrder (journal_keys df)) =
        analyze_top_journals df n ++
          (sortCountDesc (countsInOrder (journal_keys df))).drop n :=
      (List.take_append_drop n _).symm
    have hnotout : (k, (journal_keys df).count k) ∉ analyze_top_journals df n := by
      intro h
      exact hknot (List.mem_map.mpr ⟨_, h, rfl⟩)
    have hdrop : (k, (journal_keys df).count k) ∈
        (sortCountDesc (countsInOrder (journal_keys df))).drop n := by
      rw [hsplit] at hksorted
      rcases List.mem_append.mp hksorted with h | h
      · exact absurd h hnotout
      · exact h
    have hlen : n < (sortCountDesc (countsInOrder (journal_keys df))).length := by
      by_contra hle
      have : (sortCountDesc (countsInOrder (journal_keys df))).drop n = [] :=
        List.drop_eq_nil_of_le (by omega)
      rw [this] at hdrop
      simp at hdrop
    constructor
    · have huf : analyze_top_journals df n =
          (sortCountDesc (countsInOrder (journal_keys df))).take n := rfl
      rw [huf, List.length_take]
      omega
    · intro p hp
      rw [hsplit] at hR
      exact (List.pairwise_append.mp hR).2.2 p hp _ hdrop

/-- C5 counterexample: the claimed output order — vaccine before covid among
the count-2 tie — is not what the code produces, because "covid" (the first
word of row 1's title, lowercased) appears before "vaccine" in the
concatenated stream and `most_common` keeps first-appearance order on
ties. -/
theorem c5_counterexample :
    analyze_word_frequencies ((cleanRows c5_raw_table).map (fun r => r.title)) 5 ≠
      [("vaccine", 2), ("covid", 2), ("trial", 1), ("efficacy", 1), ("spread", 1)] := by
  decide

/-- C5 (amended): the Cleaner drops the title-less row, and
`wordFrequencies('title', 5)` over the two remaining rows yields exactly
covid:2, vaccine:2, trial:1, efficacy:1, spread:1, the count-2 tie ordered
covid before vaccine by first appearance in the concatenated stream. -/
theorem c5_scenario_amended :
    (cleanRows c5_raw_table).length = 2 ∧
    analyze_word_frequencies ((cleanRows c5_raw_table).map (fun r => r.title)) 5 =
      [("covid", 2), ("vaccine", 2), ("trial", 1), ("efficacy", 1), ("spread", 1)] := by
  constructor
  · decide
  · decide

/-- C6: on the empty table the mean of `abstract_word_count` computed by the
overview metrics is NaN (modelled `none`) — pandas `Series.mean()` of an
empty series — not the claimed guarded 0.0, while the remaining three
metrics are zero. -/
theorem c6_empty_table_mean_is_nan :
    overview_metrics [] = (0, 0, (none : Option ℚ), 0) ∧
    (overview_metrics []).2.2.1 ≠ some (0 : ℚ) := by
  constructor
  · rfl
  · decide

/-- C7: after filtering to the year range [2019, 2023] only the first row
remains, yet the word-frequency table rendered by the word-analysis tab is
computed from the unfiltered working table and differs from the same
aggregate applied to the Filter Engine's output (it still counts "beta"). -/
theorem c7_word_tab_ignores_filter :
    applyFilters c7_working_table 2019 2023 [] [] =
      [⟨some "alpha research paper", some "", none, none, none, some 2020, 0, "Unknown"⟩] ∧
    tab3_title_words c7_working_table (applyFilters c7_working_table 2019 2023 [] []) ≠
      analyze_word_frequencies
        ((applyFilters c7_working_table 2019 2023 [] []).map (fun r => r.title)) 15 := by
  constructor
  · decide
  · decide

/-- C8: every entry of `countsByYear` is a year within the configured bound
[2019, 2023] carrying the exact number of in-bound rows with that year;
entries are ordered by strictly ascending year; and the counts sum to at
most the number of rows with a present `publication_year`. -/
theorem c8_counts_by_year (df : List CleanRow) :
    (∀ p ∈ analyze_publications_over_time df,
      2019 ≤ p.1 ∧ p.1 ≤ 2023 ∧
      p.2 = (((df.filterMap (fun r => r.publication_year)).filter
          (fun y => decide (2019 ≤ y))).filter (fun y => decide (y ≤ 2023))).count p.1 ∧
      0 < p.2) ∧
    (analyze_publications_over_time df).Pairwise (fun p q => p.1 < q.1) ∧
    ((analyze_publications_over_time df).map (fun p => p.2)).sum ≤
      (df.filterMap (fun r => r.publication_year)).length := by
  refine ⟨?_, ?_, ?_⟩
  · intro p hp
    have hp2 : p ∈ sortCountDesc (countsInOrder
        (((df.filterMap (fun r => r.publication_year)).filter
          (fun y => decide (2019 ≤ y))).filter (fun y => decide (y ≤ 2023)))) :=
      (perm_sortKeyAsc _).mem_iff.mp hp
    have hp3 := (perm_sortCountDesc _).mem_iff.mp hp2
    obtain ⟨hmem, hcount⟩ := (mem_countsInOrder _ p).mp hp3
    have h1 := List.mem_filter.mp hmem
    have h2 := List.mem_filter.mp h1.1
    refine ⟨by simpa using h2.2, by simpa using h1.2, hcount, ?_⟩
    rw [hcount]
    exact List.count_pos_iff.mpr hmem
  · apply pairwise_sortKeyAsc
    refine ((perm_sortCountDesc _).pairwise_iff ?_).mpr (pairwise_ne_countsInOrder _)
    intro a b h
    exact h.symm
  · have hperm : List.Perm
        ((analyze_publications_over_time df).map (fun p => p.2))
        ((countsInOrder (((df.filterMap (fun r => r.publication_year)).filter
          (fun y => decide (2019 ≤ y))).filter (fun y => decide (y ≤ 2023)))).map
            (fun p => p.2)) :=
      ((perm_sortKeyAsc _).trans (perm_sortCountDesc _)).map _
    rw [hperm.sum_eq, sum_counts_countsInOrder]
    calc (((df.filterMap (fun r => r.publication_year)).filter
          (fun y => decide (2019 ≤ y))).filter (fun y => decide (y ≤ 2023))).length
        ≤ ((df.filterMap (fun r => r.publication_year)).filter
          (fun y => decide (2019 ≤ y))).length := List.length_filter_le _ _
      _ ≤ (df.filterMap (fun r => r.publication_year)).length := List.length_filter_le _ _

/-- C9: on a table that has a `title` column but no `abstract` column,
cleaning does not succeed with an all-absent abstract column as the claim
requires: `clean_data` accesses `df_clean['abstract']` unconditionally and
raises `KeyError`. -/
theorem c9_missing_column_cleaning_fails :
    clean_data ⟨true, false, true, true, true, [⟨some "A", none, none, none, none⟩]⟩ =
      Except.error "KeyError: abstract" := rfl

/-- C10: the aggregate queries are total on degenerate input — a column
whose values are all NaN yields an empty frequency table, and a table in
which every `publication_year` is absent (all publish dates unparseable)
yields an empty counts-by-year result; neither fails. -/
theorem c10_degenerate_inputs_total (values : List (Option String)) (n : Nat)
    (df : List CleanRow) :
    ((∀ v ∈ values, v = none) → analyze_word_frequencies values n = []) ∧
    ((∀ r ∈ df, r.publication_year = none) →
      analyze_publications_over_time df = []) := by
  constructor
  · intro h
    have hnil : values.filterMap (fun v => v.map String.data) = [] :=
      List.filterMap_eq_nil_iff.mpr (fun a ha => by rw [h a ha]; rfl)
    rw [analyze_word_frequencies, filtered_tokens, column_tokens, column_text, hnil]
    exact List.take_nil
  · intro h
    have hnil : df.filterMap (fun r => r.publication_year) = [] :=
      List.filterMap_eq_nil_iff.mpr h
    rw [analyze_publications_over_time, hnil]
    rfl

/-- Witness for the amended C3 theorem at the concrete column
`["Covid19 The Vaccine"]`: the only counted token is "vaccine" ("covid19"
fails the boundary test, "The" is a stop word despite its case). -/
theorem c3_regex_tokens_amended_witness :
    ("vaccine" : String) ∈ column_tokens [some "Covid19 The Vaccine"] ∧
    3 ≤ ("vaccine" : String).data.length ∧
    ("vaccine" : String).data.all Char.isAlpha = true ∧
    (∀ c ∈ ("vaccine" : String).data, c.isLower = true) ∧
    ("vaccine" : String) ∉ stop_words ∧
    (1 : Nat) = (filtered_tokens [some "Covid19 The Vaccine"]).count "vaccine" ∧
    (0 : Nat) < 1 :=
  c3_regex_tokens_amended [some "Covid19 The Vaccine"] 3 ("vaccine", 1) (by decide)

/-- Witness for C4 at the five-row table with n = 2: the entry
("Science", 2) carries the true count, and the omitted "Lancet" is beaten
by both returned entries. -/
theorem c4_top_journals_witness :
    (("Science", (2 : Nat)).1 ∈ journal_keys c4_working_table ∧
      ("Science", (2 : Nat)).2 = (journal_keys c4_working_table).count "Science") ∧
    ((analyze_top_journals c4_working_table 2).length = 2 ∧
      ∀ p ∈ analyze_top_journals c4_working_table 2,
        (journal_keys c4_working_table).count "Lancet" < p.2 ∨
        (p.2 = (journal_keys c4_working_table).count "Lancet" ∧
          firstIdx (journal_keys c4_working_table) p.1 <
            firstIdx (journal_keys c4_working_table) "Lancet")) :=
  ⟨(c4_top_journals c4_working_table 2).2.2.1 ("Science", 2) (by decide),
   (c4_top_journals c4_working_table 2).2.2.2 "Lancet" (by decide) (by decide)⟩

/-- Witness for C8 at the concrete table: the single entry (2020, 2) is in
bounds and counts exactly the two in-range rows. -/
theorem c8_counts_by_year_witness :
    (2019 : Int) ≤ ((2020 : Int), (2 : Nat)).1 ∧
    ((2020 : Int), (2 : Nat)).1 ≤ 2023 ∧
    ((2020 : Int), (2 : Nat)).2 =
      (((c8_working_table.filterMap (fun r => r.publication_year)).filter
        (fun y => decide (2019 ≤ y))).filter (fun y => decide (y ≤ 2023))).count
          ((2020 : Int), (2 : Nat)).1 ∧
    0 < ((2020 : Int), (2 : Nat)).2 :=
  (c8_counts_by_year c8_working_table).1 (2020, 2) (by decide)

/-- Witness for C10: an all-NaN column gives an empty frequency table and a
table of unparseable dates gives an empty counts-by-year result. -/
theorem c10_degenerate_inputs_total_witness :
    analyze_word_frequencies [none, none] 7 = [] ∧
    analyze_publications_over_time [c10_dateless_row] = [] :=
  ⟨(c10_degenerate_inputs_total [none, none] 7 [c10_dateless_row]).1 (by decide),
   (c10_degenerate_inputs_total [none, none] 7 [c10_dateless_row]).2 (by decide)⟩
